import Mathlib

/-!
Verification of the overlapping audio-capture-and-transcription pipeline
(terminal_app/audio.py and terminal_app/llm_client.py) against its
natural-language specification.

The Python code is shallowly embedded: timestamps and artifact paths are
natural numbers, the thread-per-component structure is modelled as explicit
state passing (the transcriber loop is the sole consumer of the pending
queue, so its iterations are sequential), and outcomes of remote
transcription attempts are supplied by an oracle function from attempt
index to outcome.
-/

/-- Outcome of a single remote call attempt, as classified by the code:
success with a text, a failure whose message matches a rate-limit token
(GroqRateLimitError after rotation, or a rate-limited message inside
rotation), or any other failure. -/
inductive TOutcome where
  | ok (text : String)
  | rateLimited
  | failed
deriving DecidableEq, Repr

/-- True when the outcome is any failure. -/
def TOutcome.isFail : TOutcome → Bool
  | .ok _ => false
  | .rateLimited => true
  | .failed => true

/-- Result of OverlapAudioManager._transcribe_single: the returned text,
the number of llm.transcribe attempts performed, and the list of sleep
durations (seconds) between attempts, in order. -/
structure TSResult where
  text : String
  attempts : Nat
  sleeps : List Nat
deriving DecidableEq, Repr

/-- The while-loop of _transcribe_single.  In the source, the loop runs
while retries <= max_retries, each failed attempt increments retries and
then returns "" when retries > max_retries, else sleeps (5s for a
rate-limit failure, 1s otherwise) and retries.  remaining = max_retries + 1
- retries is the number of attempts still permitted, so the loop guard
retries <= max_retries is remaining > 0 and the post-increment check
retries > max_retries is remaining - 1 = 0. -/
def tsLoop (out : Nat → TOutcome) : Nat → Nat → TSResult
  | _, 0 => ⟨"", 0, []⟩
  | attempt, k + 1 =>
    match out attempt with
    | .ok s => ⟨s, 1, []⟩
    | .rateLimited =>
      if k = 0 then ⟨"", 1, []⟩
      else
        let r := tsLoop out (attempt + 1) k
        ⟨r.text, r.attempts + 1, 5 :: r.sleeps⟩
    | .failed =>
      if k = 0 then ⟨"", 1, []⟩
      else
        let r := tsLoop out (attempt + 1) k
        ⟨r.text, r.attempts + 1, 1 :: r.sleeps⟩

/-- OverlapAudioManager._transcribe_single: starts with retries = 0, so
remaining = maxRetries + 1 attempts are permitted. -/
def transcribeSingle (maxRetries : Nat) (out : Nat → TOutcome) : TSResult :=
  tsLoop out 0 (maxRetries + 1)

/-- Python str.strip(): drop whitespace from both ends.  (Defined by
structural recursion so that concrete transcripts evaluate inside the
kernel.) -/
def pyStrip (s : String) : String :=
  ⟨((s.data.dropWhile Char.isWhitespace).reverse.dropWhile Char.isWhitespace).reverse⟩

/-- The ordering key of the transcript assembler: sorted(results, key =
fst), i.e. comparison of start timestamps.  Python sort is stable and so
is List.insertionSort. -/
def byStart (a b : Nat × String) : Prop := a.1 ≤ b.1

instance : DecidableRel byStart := fun a b => Nat.decLe a.1 b.1

instance : IsTotal (Nat × String) byStart := ⟨fun a b => Nat.le_total a.1 b.1⟩

instance : IsTrans (Nat × String) byStart := ⟨fun _ _ _ h1 h2 => Nat.le_trans h1 h2⟩

/-- sorted(self._results, key = lambda x: x[0]) in _write_transcript. -/
def sortByStart (l : List (Nat × String)) : List (Nat × String) :=
  List.insertionSort byStart l

/-- " ".join(texts) over the texts of the (already sorted) results. -/
def joinTexts (l : List (Nat × String)) : String :=
  String.intercalate " " (l.map Prod.snd)

/-- OverlapAudioManager._write_transcript: if the list of texts is
non-empty the sink file is overwritten with the space-joined sorted texts;
otherwise no write happens and the sink keeps its previous content
(none = file absent). -/
def writeTranscript (results : List (Nat × String)) (sink : Option String) :
    Option String :=
  if results = [] then sink else some (joinTexts (sortByStart results))

/-- Assembler state: the lock-guarded results list and the sink file
content (none = absent). -/
structure AsmState where
  results : List (Nat × String)
  sink : Option String
deriving DecidableEq, Repr

/-- One arrival in the transcriber loop: text = self._transcribe_single(...)
followed by, when text is non-empty, appending (start_ts, text.strip())
to the results and rewriting the sink.  An arrival with empty text leaves
the state unchanged. -/
def recordResult (st : AsmState) (a : Nat × String) : AsmState :=
  if a.2 = "" then st
  else
    let rs := st.results ++ [(a.1, pyStrip a.2)]
    ⟨rs, writeTranscript rs st.sink⟩

/-- The assembler run over a whole session: the sink and results are
cleared on start (clear_transcript and results.clear in start), then
transcription results arrive in an arbitrary order. -/
def runAssembler (arrivals : List (Nat × String)) : AsmState :=
  arrivals.foldl recordResult ⟨[], none⟩

/-! ### KeyManager and GroqLLM._with_key (llm_client.py) -/

/-- KeyManager state: the fixed key list, the per-key cooldown deadline
dictionary (an association list looked up by first match, matching dict
assignment as cons), the cooldown duration and the round-robin cursor. -/
structure KM where
  keys : List String
  cooldownSeconds : Nat
  cooldown : List (String × Nat)
  cursor : Nat
deriving DecidableEq, Repr

/-- KeyManager._is_available: cooldown_until.get(key, 0) <= now. -/
def KM.isAvailable (km : KM) (key : String) (now : Nat) : Bool :=
  ((km.cooldown.lookup key).getD 0) ≤ now

/-- KeyManager.backoff: cooldown_until[key] = now + cooldown_seconds. -/
def KM.backoff (km : KM) (key : String) (now : Nat) : KM :=
  { km with cooldown := (key, now + km.cooldownSeconds) :: km.cooldown }

/-- The scanning loop of KeyManager.next_key: up to len(keys) probes; each
probe reads keys[cursor % len], advances the cursor mod len, and returns
the key if it is available. -/
def nextKeyAux (now : Nat) : Nat → KM → Option String × KM
  | 0, km => (none, km)
  | n + 1, km =>
    match km.keys.get? (km.cursor % km.keys.length) with
    | none => (none, km)
    | some key =>
      let km' := { km with cursor := (km.cursor + 1) % km.keys.length }
      if km'.isAvailable key now then (some key, km')
      else nextKeyAux now n km'

/-- KeyManager.next_key. -/
def KM.nextKey (km : KM) (now : Nat) : Option String × KM :=
  nextKeyAux now km.keys.length km

/-- Result of GroqLLM._with_key: the returned text (none when the loop
fell through and GroqRateLimitError "All Groq keys failed or are cooling
down" was raised), the list of keys actually handed to the network call
in order, and the final key-manager state. -/
structure WKResult where
  result : Option String
  attempted : List String
  km : KM
deriving DecidableEq, Repr

/-- The while tried < max_tries loop of _with_key.  remaining =
max_tries - tried; each probe asks next_key, breaks when no key is
available, and on a failure classified as rate-limit (message contains a
RATE_LIMIT_TOKENS entry) additionally marks the key's cooldown.  The
attempt oracle gives the outcome of the i-th network call of this
invocation. -/
def withKeyLoop (out : Nat → TOutcome) (now : Nat) :
    Nat → Nat → KM → WKResult
  | 0, _, km => ⟨none, [], km⟩
  | remaining + 1, i, km =>
    match km.nextKey now with
    | (none, km') => ⟨none, [], km'⟩
    | (some key, km') =>
      match out i with
      | .ok s => ⟨some s, [key], km'⟩
      | .rateLimited =>
        let r := withKeyLoop out now remaining (i + 1) (km'.backoff key now)
        ⟨r.result, key :: r.attempted, r.km⟩
      | .failed =>
        let r := withKeyLoop out now remaining (i + 1) km'
        ⟨r.result, key :: r.attempted, r.km⟩

/-- GroqLLM._with_key: tried starts at 0 and max_tries = len(keys). -/
def withKey (out : Nat → TOutcome) (now : Nat) (km : KM) : WKResult :=
  withKeyLoop out now km.keys.length 0 km

/-- The credential window of length n starting at the cursor: the keys
probed, in order, by a next_key scan. -/
def KM.window (km : KM) (n : Nat) : List String :=
  (List.range n).filterMap (fun j => km.keys.get? ((km.cursor + j) % km.keys.length))

/-- Specification wording of next_key, written from the spec sentence:
nextAvailable scans at most N credentials starting at the cursor, skipping
any whose cooldownUntil is in the future, and returns the first available
or none if all are cooling down. -/
def KM.firstAvailSpec (km : KM) (now : Nat) : Option String :=
  (km.window km.keys.length).find? (fun k => km.isAvailable k now)

/-! ### OverlapAudioManager (audio.py) -/

/-- A RecordingSegment as seen by the manager: its start timestamp and the
artifact it produced (none when run() returned without writing a file,
i.e. the capture raised or captured zero frames). -/
structure Seg where
  startedAt : Nat
  artifact : Option Nat
deriving DecidableEq, Repr

/-- Manager state.  The scheduler and transcriber threads are modelled by
whether they are alive (transcriberThreads counts the consumer threads
started, matching the single threading.Thread(target=_transcriber_loop)).
deleted collects every path passed to Path.unlink and transcribedPaths
every path handed to llm.transcribe, so the theorems can speak about what
was destroyed versus what was sent to the network. -/
@[ext]
structure MState where
  paused : Bool
  stopAll : Bool
  schedulerAlive : Bool
  transcriberThreads : Nat
  transcribing : Nat
  active : List Seg
  pending : List (Nat × Nat)
  results : List (Nat × String)
  sink : Option String
  deleted : List Nat
  transcribedPaths : List Nat
deriving DecidableEq, Repr

/-- qmin picks the smaller of two pending items under the tuple order used
by queue.PriorityQueue on (start_time, path). -/
def qmin (a b : Nat × Nat) : Nat × Nat :=
  if b.1 < a.1 ∨ (b.1 = a.1 ∧ b.2 < a.2) then b else a

/-- self._pending_queue.get(): removes and returns the least item, or
none when the queue is empty. -/
def popMin (l : List (Nat × Nat)) : Option ((Nat × Nat) × List (Nat × Nat)) :=
  match l with
  | [] => none
  | x :: xs =>
    let m := xs.foldl qmin x
    some (m, l.erase m)

/-- One body of the transcriber loop after a successful queue pop:
_transcribing is incremented, _transcribe_single runs (every attempt sends
the path to llm.transcribe), a non-empty text is appended (stripped) to
the results and the sink is rewritten, the artifact is unlinked, and
_transcribing is decremented in the finally block. -/
def processItem (o : Nat → Nat → TOutcome) (maxRetries : Nat) (s : MState)
    (ts : Nat) (p : Nat) (rest : List (Nat × Nat)) : MState :=
  let r := transcribeSingle maxRetries (o p)
  let st' := recordResult ⟨s.results, s.sink⟩ (ts, r.text)
  { s with
    pending := rest
    results := st'.results
    sink := st'.sink
    deleted := s.deleted ++ [p]
    transcribedPaths := s.transcribedPaths ++ List.replicate r.attempts p }

/-- OverlapAudioManager._transcriber_loop, one iteration per fuel unit:
exit when the stop flag is set with an empty queue and nothing in flight;
otherwise pop with a timeout — an empty pop exits if the stop flag is set
and retries otherwise — and process the popped item.  none = the given
number of iterations did not reach an exit. -/
def transcriberLoop (o : Nat → Nat → TOutcome) (maxRetries : Nat) :
    Nat → MState → Option MState
  | 0, _ => none
  | fuel + 1, s =>
    if s.stopAll ∧ s.pending = [] ∧ s.transcribing = 0 then some s
    else
      match popMin s.pending with
      | none => if s.stopAll then some s else transcriberLoop o maxRetries fuel s
      | some ((ts, p), rest) =>
        transcriberLoop o maxRetries fuel (processItem o maxRetries s ts p rest)

/-- _stop_active_segments: snapshot and clear the active list under the
lock, then stop and join each segment and enqueue its artifact when one
exists. -/
def stopActiveSegments (s : MState) : MState :=
  { s with
    active := []
    pending := s.pending ++
      s.active.filterMap (fun seg => seg.artifact.map (fun p => (seg.startedAt, p))) }

/-- Joining the transcriber thread after the stop flag is set: the loop
drains the queue and exits; pending.length + 1 iterations always suffice
(proved below), the getD branch is unreachable. -/
def drainTranscriber (o : Nat → Nat → TOutcome) (maxRetries : Nat) (s : MState) : MState :=
  (transcriberLoop o maxRetries (s.pending.length + 1) s).getD s

/-- OverlapAudioManager.stop: clear paused, set the stop flag (the
scheduler loop ends and, with stop, _stop_active_segments runs), join the
transcriber when one is alive, then drop the thread reference. -/
def MState.stop (o : Nat → Nat → TOutcome) (maxRetries : Nat) (s : MState) : MState :=
  let s1 := { s with paused := false, stopAll := true, schedulerAlive := false }
  let s2 := stopActiveSegments s1
  if s2.transcriberThreads ≠ 0 then
    { drainTranscriber o maxRetries s2 with transcriberThreads := 0 }
  else s2

/-- OverlapAudioManager.pause: identical to stop except that it is a no-op
unless the scheduler is running, and it records paused = true. -/
def MState.pause (o : Nat → Nat → TOutcome) (maxRetries : Nat) (s : MState) : MState :=
  if ¬ s.schedulerAlive then s
  else
    let s1 := { s with paused := true, stopAll := true, schedulerAlive := false }
    let s2 := stopActiveSegments s1
    if s2.transcriberThreads ≠ 0 then
      { drainTranscriber o maxRetries s2 with transcriberThreads := 0 }
    else s2

/-- OverlapAudioManager.cancel: set the stop flag, stop each active
segment and unlink its artifact without queuing it, clear the active list,
drain the pending queue unlinking every queued artifact, join the
transcriber, clear the results and remove the sink file.  No path is
handed to llm.transcribe. -/
def MState.cancel (s : MState) : MState :=
  let s1 := { s with paused := false, stopAll := true, schedulerAlive := false }
  let s2 := { s1 with
    active := []
    deleted := s1.deleted ++ s1.active.filterMap Seg.artifact }
  let s3 := { s2 with
    pending := []
    deleted := s2.deleted ++ s2.pending.map Prod.snd }
  { s3 with transcriberThreads := 0, results := [], sink := none }

/-- OverlapAudioManager.start: no-op while running; otherwise clear the
transcript, the results and the pending queue, then start one transcriber
thread and the scheduler. -/
def MState.start (s : MState) : MState :=
  if s.schedulerAlive then s
  else
    { s with
      paused := false
      stopAll := false
      sink := none
      results := []
      pending := []
      transcriberThreads := 1
      schedulerAlive := true }

/-- OverlapAudioManager.resume: no-op while running or when not paused;
otherwise restart the transcriber if needed and the scheduler, touching
neither the sink, the results nor the pending queue. -/
def MState.resume (s : MState) : MState :=
  if s.schedulerAlive then s
  else if ¬ s.paused then s
  else
    { s with
      paused := false
      stopAll := false
      transcriberThreads := if s.transcriberThreads = 0 then 1 else s.transcriberThreads
      schedulerAlive := true }

/-- Construction-time configuration fields of OverlapAudioManager that the
constructor stores: segment_gap, segment_duration, max_retries.  The
max_workers argument is accepted and never stored. -/
structure MConfig where
  segmentGap : Nat
  segmentDuration : Nat
  maxRetries : Nat
deriving DecidableEq, Repr

/-- A constructed manager: stored configuration plus mutable state. -/
structure Manager where
  cfg : MConfig
  st : MState
deriving DecidableEq, Repr

set_option linter.unusedVariables false in
/-- OverlapAudioManager.__init__: sink0 is the pre-existing content of the
transcript file (the constructor does not touch it).  maxWorkers is a
parameter of the source constructor that is never stored or read. -/
def mkManager (sink0 : Option String) (segmentGap segmentDuration : Nat)
    (maxWorkers : Nat) (maxRetries : Nat) : Manager :=
  { cfg := ⟨segmentGap, segmentDuration, maxRetries⟩
    st :=
      { paused := false
        stopAll := false
        schedulerAlive := false
        transcriberThreads := 0
        transcribing := 0
        active := []
        pending := []
        results := []
        sink := sink0
        deleted := []
        transcribedPaths := [] } }

/-- main(): workers = max(2, min(5, workers)). -/
def clampWorkers (w : Nat) : Nat := max 2 (min 5 w)

/-! ### Segment lifecycle (RecordingSegment.run, _watch_segment,
_stop_active_segments) for the at-most-once enqueue invariant -/

/-- RecordingSegment.run: a capture exception returns without writing
(file_path stays None); zero captured frames also return without writing;
otherwise the concatenated frames are written and file_path is set. -/
def segProducesFile (capErr : Bool) (frames : List Nat) : Bool :=
  if capErr then false else if frames.isEmpty then false else true

/-- Events racing over the active list: the scheduler spawning segment i,
segment i's watcher firing after join, and a shutdown path running
_stop_active_segments.  The lock makes each event atomic. -/
inductive SegEv where
  | spawn (i : Nat)
  | watch (i : Nat)
  | stopSegs
deriving DecidableEq, Repr

/-- The lock-guarded active list together with the multiset of segment ids
whose artifact has been put on the pending queue. -/
structure WatchSt where
  active : List Nat
  enq : List Nat
deriving DecidableEq, Repr

/-- One atomic event.  hf i says whether segment i produced an artifact
file.  _watch_segment only queues when the segment is still in the active
list (the race guard) and has a file; _stop_active_segments snapshots and
clears the active list and queues every member with a file. -/
def segStep (hf : Nat → Bool) (st : WatchSt) : SegEv → WatchSt
  | .spawn i => { st with active := st.active ++ [i] }
  | .watch i =>
    if i ∈ st.active then
      { active := st.active.erase i
        enq := if hf i then st.enq ++ [i] else st.enq }
    else st
  | .stopSegs => { active := [], enq := st.enq ++ st.active.filter hf }

/-- An interleaving of events run from the initial empty state. -/
def segRun (hf : Nat → Bool) (evs : List SegEv) : WatchSt :=
  evs.foldl (segStep hf) ⟨[], []⟩

/-- The segment ids spawned by a trace, in order. -/
def spawnIds : List SegEv → List Nat
  | [] => []
  | SegEv.spawn i :: es => i :: spawnIds es
  | _ :: es => spawnIds es

/-! ### Theorems: transcript assembler (C1) -/

/-- The invariant the transcriber loop maintains on the assembler state:
either nothing has been recorded yet and the sink file is absent, or the
sink holds exactly the space-joined texts of the results sorted by start
timestamp. -/
def asmInv (st : AsmState) : Prop :=
  (st.results = [] ∧ st.sink = none) ∨
    st.sink = some (joinTexts (sortByStart st.results))

lemma recordResult_inv {st : AsmState} (h : asmInv st) (a : Nat × String) :
    asmInv (recordResult st a) := by
  unfold recordResult
  by_cases he : a.2 = ""
  · simpa [he] using h
  · right
    simp [he, writeTranscript]

lemma foldl_recordResult_inv (l : List (Nat × String)) :
    ∀ st : AsmState, asmInv st → asmInv (l.foldl recordResult st) := by
  induction l with
  | nil => intro st h; exact h
  | cons a l ih => intro st h; exact ih _ (recordResult_inv h a)

lemma runAssembler_inv (arrivals : List (Nat × String)) :
    asmInv (runAssembler arrivals) :=
  foldl_recordResult_inv arrivals ⟨[], none⟩ (Or.inl ⟨rfl, rfl⟩)

/-- Successful arrivals: the stripped text of every arrival whose raw text
was non-empty, paired with its start timestamp. -/
lemma foldl_recordResult_results (l : List (Nat × String)) :
    ∀ st : AsmState, (l.foldl recordResult st).results =
      st.results ++ l.filterMap
        (fun a => if a.2 = "" then none else some (a.1, pyStrip a.2)) := by
  induction l with
  | nil => intro st; simp
  | cons a l ih =>
    intro st
    by_cases he : a.2 = ""
    · simp [recordResult, he, ih]
    · simp [recordResult, he, ih]

/-- C1.  For every session (results cleared and sink removed at start,
then transcription results arriving in any order), whenever the sink is
non-empty it equals the space-joined texts of all successfully transcribed
segments — exactly the arrivals with non-empty text, stripped — sorted by
startedAt, and the sorted list's timestamps are non-decreasing. -/
theorem transcript_sink_sorted (arrivals : List (Nat × String)) (s : String)
    (h : (runAssembler arrivals).sink = some s) :
    s = joinTexts (sortByStart (runAssembler arrivals).results) ∧
    (runAssembler arrivals).results = arrivals.filterMap
      (fun a => if a.2 = "" then none else some (a.1, pyStrip a.2)) ∧
    List.Sorted byStart (sortByStart (runAssembler arrivals).results) ∧
    (sortByStart (runAssembler arrivals).results).Perm
      (runAssembler arrivals).results := by
  refine ⟨?_, ?_, ?_, ?_⟩
  · rcases runAssembler_inv arrivals with ⟨_, hnone⟩ | hsome
    · rw [hnone] at h; cases h
    · rw [hsome] at h; exact (Option.some.inj h).symm
  · simpa [runAssembler] using foldl_recordResult_results arrivals ⟨[], none⟩
  · exact List.sorted_insertionSort byStart _
  · exact List.perm_insertionSort byStart _

/-! ### Theorems: bounded retry in _transcribe_single (C5) -/

/-- One unfolding of the retry loop, stated so later proofs can rewrite
exactly one layer at a time. -/
lemma tsLoop_succ (out : Nat → TOutcome) (attempt k : Nat) :
    tsLoop out attempt (k + 1) =
      match out attempt with
      | .ok s => ⟨s, 1, []⟩
      | .rateLimited =>
        if k = 0 then ⟨"", 1, []⟩
        else
          ⟨(tsLoop out (attempt + 1) k).text,
            (tsLoop out (attempt + 1) k).attempts + 1,
            5 :: (tsLoop out (attempt + 1) k).sleeps⟩
      | .failed =>
        if k = 0 then ⟨"", 1, []⟩
        else
          ⟨(tsLoop out (attempt + 1) k).text,
            (tsLoop out (attempt + 1) k).attempts + 1,
            1 :: (tsLoop out (attempt + 1) k).sleeps⟩ := rfl

lemma tsLoop_allFail (out : Nat → TOutcome) (h : ∀ i, (out i).isFail = true) :
    ∀ (k attempt : Nat),
      (tsLoop out attempt k).text = "" ∧
      (tsLoop out attempt k).attempts = k ∧
      (tsLoop out attempt k).sleeps =
        (List.range (k - 1)).map
          (fun j => if out (attempt + j) = TOutcome.rateLimited then 5 else 1) := by
  intro k
  induction k with
  | zero => intro attempt; exact ⟨rfl, rfl, rfl⟩
  | succ k ih =>
    intro attempt
    have hfail := h attempt
    have hshift : ∀ k' : Nat, (List.range k').map
          ((fun j => if out (attempt + j) = TOutcome.rateLimited then 5 else 1) ∘ Nat.succ)
        = (List.range k').map
          (fun j => if out (attempt + 1 + j) = TOutcome.rateLimited then 5 else 1) := by
      intro k'
      refine List.map_congr_left ?_
      intro j _
      have harith : attempt + Nat.succ j = attempt + 1 + j := by omega
      simp [Function.comp, harith]
    rw [tsLoop_succ]
    cases hout : out attempt with
    | ok s => rw [hout] at hfail; simp [TOutcome.isFail] at hfail
    | rateLimited =>
      cases k with
      | zero => simp
      | succ k' =>
        obtain ⟨ht, ha, hs⟩ := ih (attempt + 1)
        refine ⟨ht, ?_, ?_⟩
        · show (tsLoop out (attempt + 1) (k' + 1)).attempts + 1 = k' + 1 + 1
          rw [ha]
        · show 5 :: (tsLoop out (attempt + 1) (k' + 1)).sleeps =
            (List.range (k' + 1)).map
              (fun j => if out (attempt + j) = TOutcome.rateLimited then 5 else 1)
          rw [List.range_succ_eq_map, List.map_cons, List.map_map, hshift k', hs]
          simp [hout]
    | failed =>
      cases k with
      | zero => simp
      | succ k' =>
        obtain ⟨ht, ha, hs⟩ := ih (attempt + 1)
        refine ⟨ht, ?_, ?_⟩
        · show (tsLoop out (attempt + 1) (k' + 1)).attempts + 1 = k' + 1 + 1
          rw [ha]
        · show 1 :: (tsLoop out (attempt + 1) (k' + 1)).sleeps =
            (List.range (k' + 1)).map
              (fun j => if out (attempt + j) = TOutcome.rateLimited then 5 else 1)
          rw [List.range_succ_eq_map, List.map_cons, List.map_map, hshift k', hs]
          simp [hout]

/-- Every call of _transcribe_single sends the artifact to the network at
least once. -/
lemma transcribeSingle_attempts_pos (m : Nat) (out : Nat → TOutcome) :
    1 ≤ (transcribeSingle m out).attempts := by
  unfold transcribeSingle
  cases hout : out 0 with
  | ok s => simp [tsLoop, hout]
  | rateLimited =>
    cases m with
    | zero => simp [tsLoop, hout]
    | succ m' => simp [tsLoop, hout]
  | failed =>
    cases m with
    | zero => simp [tsLoop, hout]
    | succ m' => simp [tsLoop, hout]

/-- Counterexample to C5 as stated: with maxRetries = 3 and every attempt
failing transiently, _transcribe_single performs 4 network attempts, not
at most 3 — the initial attempt is followed by maxRetries retries. -/
theorem transcribe_retry_attempts_counterexample :
    (transcribeSingle 3 (fun _ : Nat => TOutcome.failed)).attempts = 4 ∧
    ¬ ((transcribeSingle 3 (fun _ : Nat => TOutcome.failed)).attempts ≤ 3) := by
  constructor
  · rfl
  · decide

/-- C5 (amended).  When every attempt on an item fails, the worker makes
maxRetries + 1 attempts (the initial attempt plus maxRetries retries),
sleeping after each failure except the last — 5 seconds after a rate-limit
classified failure and 1 second after any other — then returns "" so the
item produces no transcript entry; the loop body still deletes the
artifact and moves on to the remaining queue. -/
theorem transcribe_retry_amended (m : Nat) (out : Nat → TOutcome)
    (h : ∀ i, (out i).isFail = true) :
    (transcribeSingle m out).text = "" ∧
    (transcribeSingle m out).attempts = m + 1 ∧
    (transcribeSingle m out).sleeps =
      (List.range m).map (fun j => if out j = TOutcome.rateLimited then 5 else 1) ∧
    (∀ (o : Nat → Nat → TOutcome) (s : MState) (ts p : Nat)
        (rest : List (Nat × Nat)), (∀ i, (o p i).isFail = true) →
      (processItem o m s ts p rest).results = s.results ∧
      (processItem o m s ts p rest).sink = s.sink ∧
      (processItem o m s ts p rest).deleted = s.deleted ++ [p] ∧
      (processItem o m s ts p rest).pending = rest) := by
  obtain ⟨ht, ha, hs⟩ := tsLoop_allFail out h (m + 1) 0
  refine ⟨ht, ha, ?_, ?_⟩
  · show (tsLoop out 0 (m + 1)).sleeps = _
    simpa using hs
  · intro o s ts p rest ho
    obtain ⟨ht', _, _⟩ := tsLoop_allFail (o p) ho (m + 1) 0
    have hempty : (transcribeSingle m (o p)).text = "" := ht'
    refine ⟨?_, ?_, rfl, rfl⟩
    · simp [processItem, recordResult, hempty]
    · simp [processItem, recordResult, hempty]

/-- Witness for C5 (amended) at maxRetries = 3 with every attempt a
transient failure: 4 attempts, three 1-second sleeps, empty text. -/
theorem transcribe_retry_amended_witness :
    (∀ i, ((fun _ : Nat => TOutcome.failed) i).isFail = true) ∧
    ((transcribeSingle 3 (fun _ : Nat => TOutcome.failed)).text = "" ∧
      (transcribeSingle 3 (fun _ : Nat => TOutcome.failed)).attempts = 3 + 1 ∧
      (transcribeSingle 3 (fun _ : Nat => TOutcome.failed)).sleeps =
        (List.range 3).map
          (fun j => if (fun _ : Nat => TOutcome.failed) j = TOutcome.rateLimited then 5 else 1) ∧
      (∀ (o : Nat → Nat → TOutcome) (s : MState) (ts p : Nat)
          (rest : List (Nat × Nat)), (∀ i, (o p i).isFail = true) →
        (processItem o 3 s ts p rest).results = s.results ∧
        (processItem o 3 s ts p rest).sink = s.sink ∧
        (processItem o 3 s ts p rest).deleted = s.deleted ++ [p] ∧
        (processItem o 3 s ts p rest).pending = rest)) :=
  ⟨fun _ => rfl, transcribe_retry_amended 3 (fun _ : Nat => TOutcome.failed) (fun _ => rfl)⟩

/-- Witness for C1 at a concrete out-of-order arrival list: the result
that started at time 1 arrives after the one that started at time 2, yet
the sink reads "a b". -/
theorem transcript_sink_sorted_witness :
    (runAssembler [(2, "b"), (1, "a")]).sink = some "a b" ∧
    ("a b" = joinTexts (sortByStart (runAssembler [(2, "b"), (1, "a")]).results) ∧
      (runAssembler [(2, "b"), (1, "a")]).results = [(2, "b"), (1, "a")].filterMap
        (fun a => if a.2 = "" then none else some (a.1, pyStrip a.2)) ∧
      List.Sorted byStart (sortByStart (runAssembler [(2, "b"), (1, "a")]).results) ∧
      (sortByStart (runAssembler [(2, "b"), (1, "a")]).results).Perm
        (runAssembler [(2, "b"), (1, "a")]).results) :=
  ⟨rfl, transcript_sink_sorted [(2, "b"), (1, "a")] "a b" rfl⟩

/-! ### Theorems: transcriber loop shutdown (C7) -/

/-- One unfolding of the transcriber loop. -/
lemma transcriberLoop_succ (o : Nat → Nat → TOutcome) (m fuel : Nat) (s : MState) :
    transcriberLoop o m (fuel + 1) s =
      if s.stopAll ∧ s.pending = [] ∧ s.transcribing = 0 then some s
      else
        match popMin s.pending with
        | none => if s.stopAll then some s else transcriberLoop o m fuel s
        | some ((ts, p), rest) =>
          transcriberLoop o m fuel (processItem o m s ts p rest) := rfl

lemma popMin_eq_none {l : List (Nat × Nat)} (h : popMin l = none) : l = [] := by
  cases l with
  | nil => rfl
  | cons x xs => simp [popMin] at h

/-- processItem changes only the queue, the results, the sink and the two
audit lists. -/
lemma processItem_preserves (o : Nat → Nat → TOutcome) (m : Nat) (s : MState)
    (ts p : Nat) (rest : List (Nat × Nat)) :
    (processItem o m s ts p rest).paused = s.paused ∧
    (processItem o m s ts p rest).stopAll = s.stopAll ∧
    (processItem o m s ts p rest).schedulerAlive = s.schedulerAlive ∧
    (processItem o m s ts p rest).transcriberThreads = s.transcriberThreads ∧
    (processItem o m s ts p rest).active = s.active ∧
    (processItem o m s ts p rest).transcribing = s.transcribing :=
  ⟨rfl, rfl, rfl, rfl, rfl, rfl⟩

lemma transcriberLoop_preserves (o : Nat → Nat → TOutcome) (m : Nat) :
    ∀ (fuel : Nat) (s s' : MState), transcriberLoop o m fuel s = some s' →
      s'.paused = s.paused ∧ s'.stopAll = s.stopAll ∧
      s'.schedulerAlive = s.schedulerAlive ∧
      s'.transcriberThreads = s.transcriberThreads ∧
      s'.active = s.active ∧ s'.transcribing = s.transcribing := by
  intro fuel
  induction fuel with
  | zero => intro s s' h; cases h
  | succ fuel ih =>
    intro s s' h
    rw [transcriberLoop_succ] at h
    split at h
    · cases h; exact ⟨rfl, rfl, rfl, rfl, rfl, rfl⟩
    · split at h
      · split at h
        · cases h; exact ⟨rfl, rfl, rfl, rfl, rfl, rfl⟩
        · exact ih s s' h
      · obtain ⟨p1, p2, p3, p4, p5, p6⟩ := ih _ s' h
        exact ⟨p1, p2, p3, p4, p5, p6⟩

/-- C7.  Started with no item in flight (the loop is the sole consumer and
the only code touching the in-flight counter), whenever the transcriber
loop exits, the stop flag is set, the pending queue is empty and no item
is in flight.  Retry sleeps happen inside the processing of a popped item,
between exit checks, so no exit happens during one. -/
theorem transcriber_loop_exit_condition (o : Nat → Nat → TOutcome)
    (m fuel : Nat) (s s' : MState) (h0 : s.transcribing = 0)
    (h : transcriberLoop o m fuel s = some s') :
    s'.stopAll = true ∧ s'.pending = [] ∧ s'.transcribing = 0 := by
  induction fuel generalizing s with
  | zero => cases h
  | succ fuel ih =>
    rw [transcriberLoop_succ] at h
    split at h
    · rename_i hc
      cases h
      exact ⟨hc.1, hc.2.1, hc.2.2⟩
    · rename_i hc
      split at h
      · rename_i hpop
        split at h
        · rename_i hstop
          cases h
          exact ⟨by simpa using hstop, popMin_eq_none hpop, h0⟩
        · exact ih s h0 h
      · rename_i ts p rest hpop
        exact ih _ ((processItem_preserves o m s ts p rest).2.2.2.2.2.trans h0) h

/-- Witness for C7: a queue with one item, stop flag set; the loop
transcribes the item, exits, and the exit state satisfies the triple
condition. -/
theorem transcriber_loop_exit_condition_witness :
    (MState.mk false true false 1 0 [] [(1, 5)] [] none [] []).transcribing = 0 ∧
    ((MState.mk false true false 1 0 [] [] [(1, "hi")] (some "hi") [5] [5]).stopAll = true ∧
      (MState.mk false true false 1 0 [] [] [(1, "hi")] (some "hi") [5] [5]).pending = [] ∧
      (MState.mk false true false 1 0 [] [] [(1, "hi")] (some "hi") [5] [5]).transcribing = 0) :=
  ⟨rfl,
    transcriber_loop_exit_condition (fun _ _ => TOutcome.ok "hi") 0 2
      (MState.mk false true false 1 0 [] [(1, 5)] [] none [] [])
      (MState.mk false true false 1 0 [] [] [(1, "hi")] (some "hi") [5] [5]) rfl rfl⟩

/-! ### Theorems: cancel discards everything (C2) -/

/-- C2.  After cancel() the sink file is absent, the pending queue and the
results list are empty, nothing new was handed to llm.transcribe, and the
deleted paths are exactly the previously deleted ones plus every active
segment's artifact plus every queued artifact. -/
theorem cancel_discards_all (s : MState) :
    s.cancel.sink = none ∧ s.cancel.pending = [] ∧ s.cancel.results = [] ∧
    s.cancel.transcribedPaths = s.transcribedPaths ∧
    s.cancel.deleted =
      s.deleted ++ s.active.filterMap Seg.artifact ++ s.pending.map Prod.snd := by
  refine ⟨rfl, rfl, rfl, rfl, ?_⟩
  simp [MState.cancel]

/-! ### Theorems: stop is idempotent (C9) -/

/-- Joining the transcriber changes only the queue, the results, the sink
and the audit lists. -/
lemma drainTranscriber_preserves (o : Nat → Nat → TOutcome) (m : Nat) (s : MState) :
    (drainTranscriber o m s).paused = s.paused ∧
    (drainTranscriber o m s).stopAll = s.stopAll ∧
    (drainTranscriber o m s).schedulerAlive = s.schedulerAlive ∧
    (drainTranscriber o m s).transcriberThreads = s.transcriberThreads ∧
    (drainTranscriber o m s).active = s.active := by
  unfold drainTranscriber
  cases hdt : transcriberLoop o m (s.pending.length + 1) s with
  | none => exact ⟨rfl, rfl, rfl, rfl, rfl⟩
  | some t =>
    obtain ⟨p1, p2, p3, p4, p5, _⟩ := transcriberLoop_preserves o m _ s t hdt
    exact ⟨p1, p2, p3, p4, p5⟩

/-- Every completed stop() leaves the manager with nothing active, the
scheduler finished, no transcriber thread and the flags settled. -/
lemma stop_fields (o : Nat → Nat → TOutcome) (m : Nat) (s : MState) :
    (MState.stop o m s).paused = false ∧
    (MState.stop o m s).stopAll = true ∧
    (MState.stop o m s).schedulerAlive = false ∧
    (MState.stop o m s).active = [] ∧
    (MState.stop o m s).transcriberThreads = 0 := by
  unfold MState.stop
  dsimp only
  split
  · obtain ⟨p1, p2, p3, _, _⟩ := drainTranscriber_preserves o m
      (stopActiveSegments { s with paused := false, stopAll := true, schedulerAlive := false })
    refine ⟨?_, ?_, ?_, ?_, rfl⟩
    · simpa [stopActiveSegments] using p1
    · simpa [stopActiveSegments] using p2
    · simpa [stopActiveSegments] using p3
    · obtain ⟨_, _, _, _, p5⟩ := drainTranscriber_preserves o m
        (stopActiveSegments { s with paused := false, stopAll := true, schedulerAlive := false })
      simpa [stopActiveSegments] using p5
  · rename_i hth
    refine ⟨rfl, rfl, rfl, rfl, ?_⟩
    simpa [stopActiveSegments] using hth

/-- C9.  A second stop() immediately after a completed stop() is a no-op:
it returns the state unchanged (in particular the sink, the results and
the pending queue), and being a total function of the model it raises
nothing. -/
theorem stop_idempotent (o1 o2 : Nat → Nat → TOutcome) (m1 m2 : Nat) (s : MState) :
    MState.stop o2 m2 (MState.stop o1 m1 s) = MState.stop o1 m1 s := by
  obtain ⟨h1, h2, h3, h4, h5⟩ := stop_fields o1 m1 s
  generalize hgen : MState.stop o1 m1 s = t at h1 h2 h3 h4 h5
  have hsas : stopActiveSegments
      { t with paused := false, stopAll := true, schedulerAlive := false } =
      { t with paused := false, stopAll := true, schedulerAlive := false } := by
    apply MState.ext <;> simp [stopActiveSegments, h4]
  unfold MState.stop
  dsimp only
  rw [hsas, if_neg (by simp [h5])]
  apply MState.ext <;> simp [h1, h2, h3]

/-! ### Theorems: max_workers is irrelevant (C10) -/

/-- C10.  Two managers constructed with different worker counts (clamped
to 2..5 by the entry point, as any other value) are equal in configuration
and state — the constructor accepts max_workers but never stores it — and
start() launches exactly one transcriber consumer thread. -/
theorem max_workers_irrelevant (sink0 : Option String) (g d w1 w2 r : Nat) :
    mkManager sink0 g d (clampWorkers w1) r = mkManager sink0 g d (clampWorkers w2) r ∧
    ((mkManager sink0 g d (clampWorkers w1) r).st.start).transcriberThreads = 1 :=
  ⟨rfl, rfl⟩

/-! ### Theorems: pause commits in-flight audio, resume preserves state (C8) -/

lemma qmin_choice (a b : Nat × Nat) : qmin a b = a ∨ qmin a b = b := by
  unfold qmin
  split
  · exact Or.inr rfl
  · exact Or.inl rfl

lemma foldl_qmin_mem : ∀ (xs : List (Nat × Nat)) (x : Nat × Nat),
    xs.foldl qmin x ∈ x :: xs := by
  intro xs
  induction xs with
  | nil => intro x; simp
  | cons y ys ih =>
    intro x
    have h := ih (qmin x y)
    simp only [List.foldl_cons]
    rcases List.mem_cons.mp h with h1 | h2
    · rcases qmin_choice x y with hq | hq
      · exact List.mem_cons.mpr (Or.inl (h1.trans hq))
      · exact List.mem_cons.mpr (Or.inr (List.mem_cons.mpr (Or.inl (h1.trans hq))))
    · exact List.mem_cons.mpr (Or.inr (List.mem_cons.mpr (Or.inr h2)))

lemma popMin_spec {l : List (Nat × Nat)} {it : Nat × Nat} {rest : List (Nat × Nat)}
    (h : popMin l = some (it, rest)) : it ∈ l ∧ rest = l.erase it := by
  cases l with
  | nil => cases h
  | cons x xs =>
    simp only [popMin, Option.some.injEq, Prod.mk.injEq] at h
    obtain ⟨hm, hr⟩ := h
    subst hm
    exact ⟨foldl_qmin_mem xs x, hr.symm⟩

/-- Once the stop flag is set with nothing in flight, the transcriber loop
drains the whole queue within pending.length + 1 iterations and every
queued artifact is both sent to the network and deleted. -/
lemma drain_loop_spec (o : Nat → Nat → TOutcome) (m : Nat) :
    ∀ (n : Nat) (s : MState), s.stopAll = true → s.transcribing = 0 →
      s.pending.length ≤ n →
      ∃ s', transcriberLoop o m (n + 1) s = some s' ∧ s'.pending = [] ∧
        (∀ q ∈ s.transcribedPaths, q ∈ s'.transcribedPaths) ∧
        (∀ q ∈ s.deleted, q ∈ s'.deleted) ∧
        (∀ it ∈ s.pending, it.2 ∈ s'.transcribedPaths ∧ it.2 ∈ s'.deleted) := by
  intro n
  induction n with
  | zero =>
    intro s h1 h2 h3
    have hp : s.pending = [] := List.length_eq_zero.mp (Nat.le_zero.mp h3)
    refine ⟨s, ?_, hp, fun q hq => hq, fun q hq => hq, by simp [hp]⟩
    rw [transcriberLoop_succ]
    simp [h1, hp, h2]
  | succ n ih =>
    intro s h1 h2 h3
    by_cases hp : s.pending = []
    · refine ⟨s, ?_, hp, fun q hq => hq, fun q hq => hq, by simp [hp]⟩
      rw [transcriberLoop_succ]
      simp [h1, hp, h2]
    · obtain ⟨⟨ts, q⟩, rest, hpop⟩ :
          ∃ it rest, popMin s.pending = some (it, rest) := by
        cases hl : s.pending with
        | nil => exact absurd hl hp
        | cons x xs =>
          exact ⟨xs.foldl qmin x, (x :: xs).erase (xs.foldl qmin x), rfl⟩
      obtain ⟨hmem, hrest⟩ := popMin_spec hpop
      have hlen : rest.length ≤ n := by
        rw [hrest]
        have := List.length_erase_of_mem hmem
        omega
      obtain ⟨s', hloop, hpend, htr, hdel, hall⟩ :=
        ih (processItem o m s ts q rest) h1 h2 hlen
      refine ⟨s', ?_, hpend, ?_, ?_, ?_⟩
      · rw [transcriberLoop_succ, if_neg (by simp [hp]), hpop]
        exact hloop
      · intro x hx
        exact htr x (by simp [processItem, hx])
      · intro x hx
        exact hdel x (by simp [processItem, hx])
      · intro it hit
        have hq_tr : q ∈ (processItem o m s ts q rest).transcribedPaths := by
          have hpos := transcribeSingle_attempts_pos m (o q)
          simp only [processItem, List.mem_append]
          right
          rw [List.mem_replicate]
          exact ⟨by omega, rfl⟩
        have hq_del : q ∈ (processItem o m s ts q rest).deleted := by
          simp [processItem]
        by_cases hcase : it = (ts, q)
        · subst hcase
          exact ⟨htr _ hq_tr, hdel _ hq_del⟩
        · have hit' : it ∈ rest := by
            rw [hrest]
            exact (List.mem_erase_of_ne hcase).mpr hit
          exact hall it (by simpa [processItem] using hit')

/-- C8.  While recording (scheduler alive, a transcriber thread present,
nothing in flight), pause() force-stops the segments, queues the artifact
of a mid-capture segment rather than discarding it, drains the worker pool
to completion (the artifact is handed to llm.transcribe and the queue ends
empty), and ends paused; a later resume() from the paused state restarts
the scheduler without touching the sink, the results or the pending
queue. -/
theorem pause_commits_and_resume_preserves
    (o : Nat → Nat → TOutcome) (m : Nat) (s : MState) (seg : Seg) (p : Nat)
    (hrun : s.schedulerAlive = true) (hseg : seg ∈ s.active)
    (hart : seg.artifact = some p) (htrc : s.transcribing = 0)
    (hth : s.transcriberThreads ≠ 0) :
    ((MState.pause o m s).paused = true ∧
      (MState.pause o m s).pending = [] ∧
      p ∈ (MState.pause o m s).transcribedPaths) ∧
    (∀ s2 : MState, s2.schedulerAlive = false → s2.paused = true →
      s2.resume.sink = s2.sink ∧ s2.resume.results = s2.results ∧
      s2.resume.pending = s2.pending ∧ s2.resume.schedulerAlive = true) := by
  constructor
  · have hpause : MState.pause o m s =
        (let s2 := stopActiveSegments
          { s with paused := true, stopAll := true, schedulerAlive := false };
        if s2.transcriberThreads ≠ 0 then
          { drainTranscriber o m s2 with transcriberThreads := 0 }
        else s2) := by
      unfold MState.pause
      rw [if_neg (by simp [hrun])]
    set s2 := stopActiveSegments
      { s with paused := true, stopAll := true, schedulerAlive := false } with hs2
    have hth2 : s2.transcriberThreads ≠ 0 := hth
    rw [hpause]
    dsimp only
    rw [if_pos hth2]
    obtain ⟨s', hloop, hpend, _, _, hall⟩ :=
      drain_loop_spec o m s2.pending.length s2 rfl htrc (Nat.le_refl _)
    have hdrain : drainTranscriber o m s2 = s' := by
      unfold drainTranscriber
      rw [hloop]
      rfl
    rw [hdrain]
    have hin : (seg.startedAt, p) ∈ s2.pending := by
      rw [hs2]
      simp only [stopActiveSegments, List.mem_append]
      right
      rw [List.mem_filterMap]
      exact ⟨seg, hseg, by rw [hart]; rfl⟩
    have hpause_flag : s'.paused = true := by
      have := (transcriberLoop_preserves o m _ s2 s' hloop).1
      simpa [hs2, stopActiveSegments] using this
    exact ⟨hpause_flag, hpend, (hall _ hin).1⟩
  · intro s2 hsch hpau
    unfold MState.resume
    rw [if_neg (by simp [hsch]), if_neg (by simp [hpau])]
    exact ⟨rfl, rfl, rfl, rfl⟩

/-- Witness for C8: a running manager with one active segment holding
artifact 42; pause() queues and transcribes it, and resume() preserves a
paused state's fields. -/
theorem pause_commits_and_resume_preserves_witness :
    ((MState.mk false false true 1 0 [Seg.mk 7 (some 42)] [] [] none [] []).schedulerAlive = true ∧
      Seg.mk 7 (some 42) ∈ (MState.mk false false true 1 0 [Seg.mk 7 (some 42)] [] [] none [] []).active ∧
      (Seg.mk 7 (some 42)).artifact = some 42 ∧
      (MState.mk false false true 1 0 [Seg.mk 7 (some 42)] [] [] none [] []).transcribing = 0 ∧
      (MState.mk false false true 1 0 [Seg.mk 7 (some 42)] [] [] none [] []).transcriberThreads ≠ 0) ∧
    (((MState.pause (fun _ _ => TOutcome.ok "x") 0
          (MState.mk false false true 1 0 [Seg.mk 7 (some 42)] [] [] none [] [])).paused = true ∧
        (MState.pause (fun _ _ => TOutcome.ok "x") 0
          (MState.mk false false true 1 0 [Seg.mk 7 (some 42)] [] [] none [] [])).pending = [] ∧
        42 ∈ (MState.pause (fun _ _ => TOutcome.ok "x") 0
          (MState.mk false false true 1 0 [Seg.mk 7 (some 42)] [] [] none [] [])).transcribedPaths) ∧
      (∀ s2 : MState, s2.schedulerAlive = false → s2.paused = true →
        s2.resume.sink = s2.sink ∧ s2.resume.results = s2.results ∧
        s2.resume.pending = s2.pending ∧ s2.resume.schedulerAlive = true)) :=
  ⟨⟨rfl, by simp, rfl, rfl, by simp⟩,
    pause_commits_and_resume_preserves (fun _ _ => TOutcome.ok "x") 0
      (MState.mk false false true 1 0 [Seg.mk 7 (some 42)] [] [] none [] [])
      (Seg.mk 7 (some 42)) 42 rfl (by simp) rfl rfl (by simp)⟩

/-! ### Theorems: credential rotation (C3, C4) -/

/-- One unfolding of the next_key scanning loop. -/
lemma nextKeyAux_succ (now n : Nat) (km : KM) :
    nextKeyAux now (n + 1) km =
      match km.keys.get? (km.cursor % km.keys.length) with
      | none => (none, km)
      | some key =>
        if KM.isAvailable { km with cursor := (km.cursor + 1) % km.keys.length } key now
        then (some key, { km with cursor := (km.cursor + 1) % km.keys.length })
        else nextKeyAux now n { km with cursor := (km.cursor + 1) % km.keys.length } := rfl

/-- One unfolding of the _with_key rotation loop. -/
lemma withKeyLoop_succ (out : Nat → TOutcome) (now remaining i : Nat) (km : KM) :
    withKeyLoop out now (remaining + 1) i km =
      match km.nextKey now with
      | (none, km') => ⟨none, [], km'⟩
      | (some key, km') =>
        match out i with
        | .ok s => ⟨some s, [key], km'⟩
        | .rateLimited =>
          let r := withKeyLoop out now remaining (i + 1) (km'.backoff key now)
          ⟨r.result, key :: r.attempted, r.km⟩
        | .failed =>
          let r := withKeyLoop out now remaining (i + 1) km'
          ⟨r.result, key :: r.attempted, r.km⟩ := rfl

/-- Adding d with 0 < d < L moves to a different residue class mod L. -/
lemma add_mod_ne (c d L : Nat) (hL : 0 < L) (hd1 : 0 < d) (hd2 : d < L) :
    (c + d) % L ≠ c % L := by
  intro h
  have ha : c % L < L := Nat.mod_lt _ hL
  have h1 : (c + d) % L = (c % L + d) % L := by
    conv_lhs => rw [Nat.add_mod, Nat.mod_eq_of_lt hd2]
  by_cases hlt : c % L + d < L
  · rw [h1, Nat.mod_eq_of_lt hlt] at h
    omega
  · have h2 : c % L + d - L < L := by omega
    have h3 : (c % L + d) % L = c % L + d - L := by
      rw [Nat.mod_eq_sub_mod (by omega), Nat.mod_eq_of_lt h2]
    rw [h1, h3] at h
    omega

/-- The cursor does not affect availability. -/
lemma isAvailable_set_cursor (km : KM) (c : Nat) (k : String) (now : Nat) :
    KM.isAvailable { km with cursor := c } k now = km.isAvailable k now := rfl

/-- next_key returns the key under the cursor when it is available,
advancing the cursor by one (mod N). -/
lemma nextKey_head_available (now : Nat) (km : KM) (key : String)
    (hg : km.keys.get? (km.cursor % km.keys.length) = some key)
    (hav : km.isAvailable key now = true) :
    km.nextKey now =
      (some key, { km with cursor := (km.cursor + 1) % km.keys.length }) := by
  unfold KM.nextKey
  have hpos : km.keys.length ≠ 0 := by
    intro h0
    rw [List.length_eq_zero.mp h0] at hg
    simp at hg
  obtain ⟨n, hn⟩ := Nat.exists_eq_succ_of_ne_zero hpos
  rw [show nextKeyAux now km.keys.length km = nextKeyAux now (n + 1) km from by rw [hn]]
  rw [nextKeyAux_succ, hg]
  dsimp only
  rw [if_pos (show KM.isAvailable
    { km with cursor := (km.cursor + 1) % km.keys.length } key now = true from hav)]

/-- When every key is cooling down, the scan returns none. -/
lemma nextKeyAux_all_unavailable (now : Nat) :
    ∀ (n : Nat) (km : KM), (∀ k ∈ km.keys, km.isAvailable k now = false) →
      (nextKeyAux now n km).1 = none := by
  intro n
  induction n with
  | zero => intro km _; rfl
  | succ n ih =>
    intro km h
    rw [nextKeyAux_succ]
    cases hg : km.keys.get? (km.cursor % km.keys.length) with
    | none => rfl
    | some key =>
      have hk : key ∈ km.keys := List.get?_mem hg
      have hcond : KM.isAvailable
          { km with cursor := (km.cursor + 1) % km.keys.length } key now = false :=
        h key hk
      dsimp only
      rw [if_neg (by simp [hcond])]
      exact ih { km with cursor := (km.cursor + 1) % km.keys.length } h

/-- _with_key with every key cooling down: the first next_key probe
returns none, the loop breaks, GroqRateLimitError is raised with zero
network attempts. -/
lemma withKey_all_unavailable (out : Nat → TOutcome) (now : Nat) (km : KM)
    (h : ∀ k ∈ km.keys, km.isAvailable k now = false) :
    (withKey out now km).result = none ∧ (withKey out now km).attempted = [] := by
  unfold withKey
  cases hn : km.keys.length with
  | zero => exact ⟨rfl, rfl⟩
  | succ n =>
    rw [withKeyLoop_succ]
    have h1 : (km.nextKey now).1 = none := nextKeyAux_all_unavailable now _ km h
    cases hnk : km.nextKey now with
    | mk fst snd =>
      rw [hnk] at h1
      subst h1
      exact ⟨rfl, rfl⟩

/-- Decomposing the probe window: its head is the key under the cursor,
its tail the window after advancing the cursor. -/
lemma window_succ (km : KM) (key : String) (n : Nat)
    (hg : km.keys.get? (km.cursor % km.keys.length) = some key) :
    km.window (n + 1) =
      key :: KM.window { km with cursor := (km.cursor + 1) % km.keys.length } n := by
  unfold KM.window
  rw [List.range_succ_eq_map, List.filterMap_cons, List.filterMap_map]
  have h0 : km.keys.get? ((km.cursor + 0) % km.keys.length) = some key := by
    simpa using hg
  rw [h0]
  have hfun : ((fun j => km.keys.get? ((km.cursor + j) % km.keys.length)) ∘ Nat.succ)
      = fun j => km.keys.get?
          (((km.cursor + 1) % km.keys.length + j) % km.keys.length) := by
    funext j
    simp only [Function.comp]
    conv_rhs => rw [Nat.mod_add_mod]
    congr 2
    omega
  rw [hfun]

lemma window_length : ∀ (r : Nat) (km : KM), 0 < km.keys.length →
    (km.window r).length = r := by
  intro r
  induction r with
  | zero => intro km _; rfl
  | succ r ih =>
    intro km h
    have hidx : km.cursor % km.keys.length < km.keys.length := Nat.mod_lt _ h
    obtain ⟨key, hg⟩ : ∃ key, km.keys.get? (km.cursor % km.keys.length) = some key :=
      ⟨km.keys.get ⟨_, hidx⟩, List.get?_eq_get hidx⟩
    rw [window_succ km key r hg, List.length_cons,
      ih { km with cursor := (km.cursor + 1) % km.keys.length } h]

/-- Every key appears in the full window: the scan starting at any cursor
covers all N indices. -/
lemma mem_window_of_mem (km : KM) (k : String) (hk : k ∈ km.keys) :
    k ∈ km.window km.keys.length := by
  obtain ⟨idx, hget⟩ := List.get?_of_mem hk
  obtain ⟨hidx, _⟩ := List.get?_eq_some.mp hget
  unfold KM.window
  refine List.mem_filterMap.mpr
    ⟨(idx + km.keys.length - km.cursor % km.keys.length) % km.keys.length,
      List.mem_range.mpr (Nat.mod_lt _ (by omega)), ?_⟩
  have hdm := Nat.div_add_mod km.cursor km.keys.length
  have hcm : km.cursor % km.keys.length < km.keys.length := Nat.mod_lt _ (by omega)
  have hmul : km.keys.length * (km.cursor / km.keys.length + 1)
      = km.keys.length * (km.cursor / km.keys.length) + km.keys.length := by
    rw [Nat.mul_add, Nat.mul_one]
  have heq : km.cursor + (idx + km.keys.length - km.cursor % km.keys.length)
      = km.keys.length * (km.cursor / km.keys.length + 1) + idx := by
    rw [hmul]
    omega
  rw [Nat.add_mod_mod, heq, Nat.mul_add_mod, Nat.mod_eq_of_lt hidx]
  exact hget

/-- The exhaustive rate-limited sweep of _with_key: as long as every key
in the probe window is available and every attempt rate-limits, each probe
takes the key under the cursor, backs it off, and moves on; the keys
attempted are exactly the window, each gets cooldown now + cooldownSeconds,
and the loop ends raising. -/
lemma withKeyLoop_rl_sweep (now : Nat) (out : Nat → TOutcome)
    (hout : ∀ j, out j = TOutcome.rateLimited) :
    ∀ (r : Nat) (i : Nat) (km : KM), km.keys.Nodup → r ≤ km.keys.length →
      (∀ j, j < r → ∀ k,
        km.keys.get? ((km.cursor + j) % km.keys.length) = some k →
        km.isAvailable k now = true) →
      (withKeyLoop out now r i km).result = none ∧
      (withKeyLoop out now r i km).attempted = km.window r ∧
      (withKeyLoop out now r i km).km.keys = km.keys ∧
      (withKeyLoop out now r i km).km.cooldownSeconds = km.cooldownSeconds ∧
      (∀ k, (withKeyLoop out now r i km).km.cooldown.lookup k =
        if k ∈ km.window r then some (now + km.cooldownSeconds)
        else km.cooldown.lookup k) := by
  intro r
  induction r with
  | zero =>
    intro i km _ _ _
    refine ⟨rfl, rfl, rfl, rfl, ?_⟩
    intro k
    rw [if_neg (by simp [KM.window])]
    rfl
  | succ r ih =>
    intro i km hnd hr hav
    have hlen : 0 < km.keys.length := by omega
    have hidx0 : km.cursor % km.keys.length < km.keys.length := Nat.mod_lt _ hlen
    obtain ⟨key, hg⟩ : ∃ key, km.keys.get? (km.cursor % km.keys.length) = some key :=
      ⟨km.keys.get ⟨_, hidx0⟩, List.get?_eq_get hidx0⟩
    have hav0 : km.isAvailable key now = true :=
      hav 0 (by omega) key (by simpa using hg)
    have hnk := nextKey_head_available now km key hg hav0
    set km1 : KM := { km with cursor := (km.cursor + 1) % km.keys.length } with hkm1
    set km2 : KM := km1.backoff key now with hkm2
    have hnd2 : km2.keys.Nodup := hnd
    have hr2 : r ≤ km2.keys.length := by
      show r ≤ km.keys.length
      omega
    have hav2 : ∀ j, j < r → ∀ k,
        km2.keys.get? ((km2.cursor + j) % km2.keys.length) = some k →
        km2.isAvailable k now = true := by
      intro j hj k hk
      have hk0 : km.keys.get?
          (((km.cursor + 1) % km.keys.length + j) % km.keys.length) = some k := hk
      have hidxeq : ((km.cursor + 1) % km.keys.length + j) % km.keys.length
          = (km.cursor + (j + 1)) % km.keys.length := by
        rw [Nat.mod_add_mod]
        congr 1
        omega
      have hk' : km.keys.get? ((km.cursor + (j + 1)) % km.keys.length) = some k := by
        rw [← hidxeq]
        exact hk0
      have havk := hav (j + 1) (by omega) k hk'
      have hne : k ≠ key := by
        intro heq
        subst heq
        have h1 : (km.cursor + (j + 1)) % km.keys.length < km.keys.length :=
          Nat.mod_lt _ hlen
        have h2 : (km.cursor + (j + 1)) % km.keys.length
            = km.cursor % km.keys.length := by
          apply List.getElem?_inj h1 hnd
          rw [← List.get?_eq_getElem?, ← List.get?_eq_getElem?, hk', hg]
        exact add_mod_ne km.cursor (j + 1) km.keys.length hlen (by omega) (by omega) h2
      have hlookup : km2.cooldown.lookup k = km.cooldown.lookup k := by
        show List.lookup k ((key, now + km.cooldownSeconds) :: km.cooldown)
          = km.cooldown.lookup k
        rw [List.lookup_cons, show (k == key) = false from beq_eq_false_iff_ne.mpr hne]
      show KM.isAvailable km2 k now = true
      unfold KM.isAvailable
      rw [hlookup]
      exact havk
    obtain ⟨ihres, ihatt, ihkeys, ihcd, ihlook⟩ := ih (i + 1) km2 hnd2 hr2 hav2
    have hwin : km.window (r + 1) = key :: KM.window km2 r := by
      rw [window_succ km key r hg]
      rfl
    rw [withKeyLoop_succ, hnk, hout i]
    dsimp only
    refine ⟨ihres, ?_, ihkeys, ihcd, ?_⟩
    · rw [ihatt, hwin]
    · intro k
      rw [ihlook k, hwin]
      by_cases h1 : k ∈ KM.window km2 r
      · rw [if_pos h1, if_pos (List.mem_cons.mpr (Or.inr h1))]
        rfl
      · by_cases h2 : k = key
        · subst h2
          rw [if_neg h1, if_pos (List.mem_cons_self k _)]
          show List.lookup k ((k, now + km.cooldownSeconds) :: km.cooldown)
            = some (now + km.cooldownSeconds)
          rw [List.lookup_cons, show (k == k) = true from beq_self_eq_true k]
        · rw [if_neg h1, if_neg (by
            intro hmem
            rcases List.mem_cons.mp hmem with h | h
            · exact h2 h
            · exact h1 h)]
          show List.lookup k ((key, now + km.cooldownSeconds) :: km.cooldown)
            = km.cooldown.lookup k
          rw [List.lookup_cons, show (k == key) = false from beq_eq_false_iff_ne.mpr h2]

/-- C3.  With N distinct credentials all available and every attempt
rate-limited, one transcribe call raises (result none) after exactly N
network attempts, sets every credential's cooldown to now + 300, and a
second call made while all cooldowns are in the future raises immediately
with zero network attempts. -/
theorem credential_exhaustion (out out' : Nat → TOutcome) (now : Nat) (km : KM)
    (hnd : km.keys.Nodup) (hne : km.keys ≠ [])
    (hcd : km.cooldownSeconds = 300)
    (havail : ∀ k ∈ km.keys, km.isAvailable k now = true)
    (hout : ∀ j, out j = TOutcome.rateLimited) :
    (withKey out now km).result = none ∧
    (withKey out now km).attempted.length = km.keys.length ∧
    (∀ k ∈ km.keys,
      (withKey out now km).km.cooldown.lookup k = some (now + 300)) ∧
    (∀ now', now' < now + 300 →
      (withKey out' now' (withKey out now km).km).result = none ∧
      (withKey out' now' (withKey out now km).km).attempted = []) := by
  have hlen : 0 < km.keys.length := List.length_pos.mpr hne
  have hav : ∀ j, j < km.keys.length → ∀ k,
      km.keys.get? ((km.cursor + j) % km.keys.length) = some k →
      km.isAvailable k now = true := fun j _ k hk => havail k (List.get?_mem hk)
  obtain ⟨hres, hatt, hkeys, _, hlook⟩ :=
    withKeyLoop_rl_sweep now out hout km.keys.length 0 km hnd (Nat.le_refl _) hav
  have hres' : (withKey out now km).result = none := hres
  have hatt' : (withKey out now km).attempted = km.window km.keys.length := hatt
  have hkeys' : (withKey out now km).km.keys = km.keys := hkeys
  have hlook' : ∀ k, (withKey out now km).km.cooldown.lookup k =
      if k ∈ km.window km.keys.length then some (now + km.cooldownSeconds)
      else km.cooldown.lookup k := hlook
  refine ⟨hres', ?_, ?_, ?_⟩
  · rw [hatt']
    exact window_length km.keys.length km hlen
  · intro k hk
    rw [hlook' k, if_pos (mem_window_of_mem km k hk), hcd]
  · intro now' hnow'
    apply withKey_all_unavailable
    intro k hk2
    have hk3 : k ∈ km.keys := by rw [hkeys'] at hk2; exact hk2
    unfold KM.isAvailable
    rw [hlook' k, if_pos (mem_window_of_mem km k hk3), hcd]
    simp only [Option.getD_some, decide_eq_false_iff_not]
    omega

/-- Witness for C3 with two fresh keys at now = 1000. -/
theorem credential_exhaustion_witness :
    ((KM.mk ["k1", "k2"] 300 [] 0).keys.Nodup ∧
      (KM.mk ["k1", "k2"] 300 [] 0).keys ≠ [] ∧
      (KM.mk ["k1", "k2"] 300 [] 0).cooldownSeconds = 300 ∧
      (∀ k ∈ (KM.mk ["k1", "k2"] 300 [] 0).keys,
        (KM.mk ["k1", "k2"] 300 [] 0).isAvailable k 1000 = true) ∧
      (∀ j : Nat, (fun _ : Nat => TOutcome.rateLimited) j = TOutcome.rateLimited)) ∧
    ((withKey (fun _ : Nat => TOutcome.rateLimited) 1000
        (KM.mk ["k1", "k2"] 300 [] 0)).result = none ∧
      (withKey (fun _ : Nat => TOutcome.rateLimited) 1000
        (KM.mk ["k1", "k2"] 300 [] 0)).attempted.length =
        (KM.mk ["k1", "k2"] 300 [] 0).keys.length ∧
      (∀ k ∈ (KM.mk ["k1", "k2"] 300 [] 0).keys,
        (withKey (fun _ : Nat => TOutcome.rateLimited) 1000
          (KM.mk ["k1", "k2"] 300 [] 0)).km.cooldown.lookup k = some (1000 + 300)) ∧
      (∀ now', now' < 1000 + 300 →
        (withKey (fun _ : Nat => TOutcome.rateLimited) now'
          (withKey (fun _ : Nat => TOutcome.rateLimited) 1000
            (KM.mk ["k1", "k2"] 300 [] 0)).km).result = none ∧
        (withKey (fun _ : Nat => TOutcome.rateLimited) now'
          (withKey (fun _ : Nat => TOutcome.rateLimited) 1000
            (KM.mk ["k1", "k2"] 300 [] 0)).km).attempted = [])) :=
  ⟨⟨by decide, by decide, rfl, by decide, fun _ => rfl⟩,
    credential_exhaustion (fun _ : Nat => TOutcome.rateLimited)
      (fun _ : Nat => TOutcome.rateLimited) 1000 (KM.mk ["k1", "k2"] 300 [] 0)
      (by decide) (by decide) rfl (by decide) (fun _ => rfl)⟩

/-- Counterexample to C4 as stated: with keys ["a", "b"], "b" cooling
down until 5000, now = 0, and every attempt failing with a
non-rate-limit error, _with_key raises AllKeysExhausted having tried "a"
twice and "b" not at all. -/
theorem key_rotation_counterexample :
    (withKey (fun _ : Nat => TOutcome.failed) 0
      (KM.mk ["a", "b"] 300 [("b", 5000)] 0)).result = none ∧
    (withKey (fun _ : Nat => TOutcome.failed) 0
      (KM.mk ["a", "b"] 300 [("b", 5000)] 0)).attempted = ["a", "a"] ∧
    "b" ∈ (KM.mk ["a", "b"] 300 [("b", 5000)] 0).keys ∧
    "b" ∉ (withKey (fun _ : Nat => TOutcome.failed) 0
      (KM.mk ["a", "b"] 300 [("b", 5000)] 0)).attempted :=
  ⟨rfl, rfl, by decide, by decide⟩

lemma withKeyLoop_attempted_le (out : Nat → TOutcome) (now : Nat) :
    ∀ (r i : Nat) (km : KM), (withKeyLoop out now r i km).attempted.length ≤ r := by
  intro r
  induction r with
  | zero => intro i km; exact Nat.le_refl 0
  | succ r ih =>
    intro i km
    rw [withKeyLoop_succ]
    cases hnk : km.nextKey now with
    | mk fst snd =>
      cases fst with
      | none => dsimp only; simp
      | some key =>
        cases hout : out i with
        | ok s => dsimp only; simp
        | rateLimited =>
          dsimp only
          have h := ih (i + 1) (snd.backoff key now)
          simp only [List.length_cons]
          omega
        | failed =>
          dsimp only
          have h := ih (i + 1) snd
          simp only [List.length_cons]
          omega

/-- next_key refines the spec's nextAvailable: the scan over at most N
keys starting at the cursor returns exactly the first available key of the
probe window, or none. -/
lemma nextKeyAux_find (now : Nat) : ∀ (n : Nat) (km : KM),
    (nextKeyAux now n km).1 =
      (km.window n).find? (fun k => km.isAvailable k now) := by
  intro n
  induction n with
  | zero => intro km; rfl
  | succ n ih =>
    intro km
    rw [nextKeyAux_succ]
    cases hg : km.keys.get? (km.cursor % km.keys.length) with
    | none =>
      have hkeys : km.keys = [] := by
        by_contra hne2
        have hlen : 0 < km.keys.length := List.length_pos.mpr hne2
        have hidx : km.cursor % km.keys.length < km.keys.length := Nat.mod_lt _ hlen
        rw [List.get?_eq_get hidx] at hg
        cases hg
      have hwin : km.window (n + 1) = [] := by
        unfold KM.window
        rw [List.filterMap_eq_nil_iff]
        intro j _
        rw [hkeys]
        rfl
      rw [hwin]
      rfl
    | some key =>
      dsimp only
      rw [window_succ km key n hg, List.find?_cons]
      cases hav : km.isAvailable key now with
      | true =>
        rw [if_pos (show KM.isAvailable
          { km with cursor := (km.cursor + 1) % km.keys.length } key now = true from hav)]
      | false =>
        rw [if_neg (by
          rw [show KM.isAvailable
            { km with cursor := (km.cursor + 1) % km.keys.length } key now
            = km.isAvailable key now from rfl, hav]
          simp)]
        exact ih { km with cursor := (km.cursor + 1) % km.keys.length }

/-- C4 (amended).  A single invocation makes at most N network attempts
before raising AllKeysExhausted (a credential may be attempted more than
once and a cooling credential may never be attempted, as the
counterexample shows), and next_key implements the spec's nextAvailable:
it scans at most N credentials starting at the cursor, skips those whose
cooldownUntil is in the future, and returns the first available or
none. -/
theorem key_rotation_amended (out : Nat → TOutcome) (now : Nat) (km : KM) :
    (withKey out now km).attempted.length ≤ km.keys.length ∧
    (km.nextKey now).1 = km.firstAvailSpec now :=
  ⟨withKeyLoop_attempted_le out now km.keys.length 0 km,
    nextKeyAux_find now km.keys.length km⟩

/-! ### Theorems: at-most-once enqueue of segment artifacts (C6) -/

/-- The inductive invariant over every interleaving of watcher firings,
shutdown stops and spawns of fresh segments: ids in the active list and
the enqueued multiset are pairwise distinct, and everything enqueued has
an artifact file. -/
lemma segRun_inv (hf : Nat → Bool) :
    ∀ (evs : List SegEv) (st : WatchSt),
      (spawnIds evs).Nodup →
      (∀ i ∈ spawnIds evs, i ∉ st.active ∧ i ∉ st.enq) →
      (st.active ++ st.enq).Nodup →
      (∀ i ∈ st.enq, hf i = true) →
      ((evs.foldl (segStep hf) st).active ++ (evs.foldl (segStep hf) st).enq).Nodup ∧
      (∀ i ∈ (evs.foldl (segStep hf) st).enq, hf i = true) := by
  intro evs
  induction evs with
  | nil => intro st _ _ h3 h4; exact ⟨h3, h4⟩
  | cons e es ih =>
    intro st h1 h2 h3 h4
    simp only [List.foldl_cons]
    cases e with
    | spawn i =>
      have hsp : spawnIds (SegEv.spawn i :: es) = i :: spawnIds es := rfl
      rw [hsp] at h1 h2
      have h1' : (spawnIds es).Nodup := (List.nodup_cons.mp h1).2
      have hi_not : i ∉ spawnIds es := (List.nodup_cons.mp h1).1
      have hi2 := h2 i (List.mem_cons_self i _)
      have hperm : ((st.active ++ [i]) ++ st.enq).Perm (i :: (st.active ++ st.enq)) := by
        have e1 : (st.active ++ [i]) ++ st.enq = st.active ++ (i :: st.enq) := by
          rw [List.append_assoc]
          rfl
        rw [e1]
        exact List.perm_middle
      apply ih
      · exact h1'
      · intro j hj
        have hj2 := h2 j (List.mem_cons_of_mem i hj)
        refine ⟨?_, hj2.2⟩
        intro hmem
        rcases List.mem_append.mp hmem with h | h
        · exact hj2.1 h
        · rw [List.mem_singleton.mp h] at hj
          exact hi_not hj
      · refine hperm.symm.nodup (List.nodup_cons.mpr ⟨?_, h3⟩)
        intro hm
        rcases List.mem_append.mp hm with h | h
        · exact hi2.1 h
        · exact hi2.2 h
      · exact h4
    | watch i =>
      have hsp : spawnIds (SegEv.watch i :: es) = spawnIds es := rfl
      rw [hsp] at h1 h2
      show _ ∧ _
      by_cases hmem : i ∈ st.active
      · have hstep : segStep hf st (SegEv.watch i) =
            { active := st.active.erase i
              enq := if hf i then st.enq ++ [i] else st.enq } := by
          unfold segStep
          dsimp only
          rw [if_pos hmem]
        rw [hstep]
        by_cases hfi : hf i = true
        · rw [if_pos hfi]
          have hperm : (st.active.erase i ++ (st.enq ++ [i])).Perm
              (st.active ++ st.enq) := by
            have p2 : (st.active.erase i ++ (st.enq ++ [i])).Perm
                (st.active.erase i ++ (i :: st.enq)) :=
              List.Perm.append_left _ (List.perm_append_singleton i st.enq)
            have p3 : (st.active.erase i ++ (i :: st.enq)).Perm
                (i :: (st.active.erase i ++ st.enq)) := List.perm_middle
            have p4 : (st.active ++ st.enq).Perm
                ((i :: st.active.erase i) ++ st.enq) :=
              (List.perm_cons_erase hmem).append_right st.enq
            exact (p2.trans p3).trans p4.symm
          apply ih
          · exact h1
          · intro j hj
            have hj2 := h2 j hj
            refine ⟨fun hm => hj2.1 (List.mem_of_mem_erase hm), ?_⟩
            intro hm
            rcases List.mem_append.mp hm with h | h
            · exact hj2.2 h
            · rw [List.mem_singleton.mp h] at hj2
              exact hj2.1 hmem
          · exact hperm.symm.nodup h3
          · intro j hj
            rcases List.mem_append.mp hj with h | h
            · exact h4 j h
            · rw [List.mem_singleton.mp h]
              exact hfi
        · rw [if_neg hfi]
          apply ih
          · exact h1
          · intro j hj
            have hj2 := h2 j hj
            exact ⟨fun hm => hj2.1 (List.mem_of_mem_erase hm), hj2.2⟩
          · exact List.Nodup.sublist
              ((List.erase_sublist i st.active).append_right st.enq) h3
          · exact h4
      · have hstep : segStep hf st (SegEv.watch i) = st := by
          unfold segStep
          dsimp only
          rw [if_neg hmem]
        rw [hstep]
        exact ih st h1 h2 h3 h4
    | stopSegs =>
      have hsp : spawnIds (SegEv.stopSegs :: es) = spawnIds es := rfl
      rw [hsp] at h1 h2
      have hnd' : (([] : List Nat) ++ (st.enq ++ st.active.filter hf)).Nodup := by
        show (st.enq ++ st.active.filter hf).Nodup
        exact List.Nodup.sublist
          (List.Sublist.append_left (List.filter_sublist st.active) st.enq)
          (List.perm_append_comm.nodup h3)
      apply ih
      · exact h1
      · intro j hj
        have hj2 := h2 j hj
        refine ⟨fun hm => (List.not_mem_nil j) hm, ?_⟩
        intro hm
        rcases List.mem_append.mp hm with h | h
        · exact hj2.2 h
        · exact hj2.1 (List.mem_of_mem_filter h)
      · exact hnd'
      · intro j hj
        rcases List.mem_append.mp hj with h | h
        · exact h4 j h
        · exact List.of_mem_filter h

/-- C6.  Over every interleaving of the natural-finish watcher path and
the forced-stop shutdown path (with each segment object spawned once),
every segment's artifact is enqueued at most once, and only segments that
finished — no capture error and at least one captured block, hence an
artifact file — are ever enqueued. -/
theorem segment_enqueued_at_most_once (capErr : Nat → Bool)
    (frames : Nat → List Nat) (evs : List SegEv)
    (hnd : (spawnIds evs).Nodup) :
    (∀ i, List.count i
      (segRun (fun i => segProducesFile (capErr i) (frames i)) evs).enq ≤ 1) ∧
    (∀ i ∈ (segRun (fun i => segProducesFile (capErr i) (frames i)) evs).enq,
      capErr i = false ∧ frames i ≠ []) := by
  obtain ⟨hnodup, hfile⟩ :=
    segRun_inv (fun i => segProducesFile (capErr i) (frames i)) evs ⟨[], []⟩
      hnd (by simp) (by simp) (by simp)
  constructor
  · intro i
    exact List.nodup_iff_count_le_one.mp (List.Nodup.of_append_right hnodup) i
  · intro i hi
    have hfi := hfile i hi
    unfold segProducesFile at hfi
    cases hce : capErr i with
    | true => rw [hce] at hfi; simp at hfi
    | false =>
      cases hfr : frames i with
      | nil => rw [hce, hfr] at hfi; simp at hfi
      | cons a l =>
        refine ⟨rfl, ?_⟩
        simp

/-- Witness for C6: segment 0 finishes naturally and is queued by its
watcher; segment 1 captures nothing and the force-stop path queues
nothing for it. -/
theorem segment_enqueued_at_most_once_witness :
    (spawnIds [SegEv.spawn 0, SegEv.watch 0, SegEv.spawn 1, SegEv.stopSegs]).Nodup ∧
    ((∀ i, List.count i
        (segRun (fun i => segProducesFile ((fun _ : Nat => false) i)
          ((fun j : Nat => if j = 0 then [1] else []) i))
          [SegEv.spawn 0, SegEv.watch 0, SegEv.spawn 1, SegEv.stopSegs]).enq ≤ 1) ∧
      (∀ i ∈ (segRun (fun i => segProducesFile ((fun _ : Nat => false) i)
          ((fun j : Nat => if j = 0 then [1] else []) i))
          [SegEv.spawn 0, SegEv.watch 0, SegEv.spawn 1, SegEv.stopSegs]).enq,
        (fun _ : Nat => false) i = false ∧
        (fun j : Nat => if j = 0 then [1] else []) i ≠ [])) :=
  ⟨by decide,
    segment_enqueued_at_most_once (fun _ : Nat => false)
      (fun j : Nat => if j = 0 then [1] else [])
      [SegEv.spawn 0, SegEv.watch 0, SegEv.spawn 1, SegEv.stopSegs] (by decide)⟩
